import Mathlib

/-!
Verification of the wall-coverage trajectory service.

The development shallowly embeds the Python sources:
  app/planner.py  — grid coverage planner (`rects_overlap`, `generate_coverage_path`)
  app/main.py     — request validation, cache keying and the `/generate_trajectory`
                    pipeline (`get_cache_key`, `cached_generate_coverage_path`,
                    `generate_trajectory`)
  app/db.py       — persistence wrapper (`save_trajectory`)

Real numbers of the Python program are modelled as rationals; Python `round`
(banker's rounding, ties to even) is modelled by `roundHalfEven`.
-/

namespace PaintWall

/-- An axis-aligned obstacle rectangle, bottom-left corner `(x, y)`,
mirroring the `{x, y, width, height}` dicts of `app/models.py`. -/
structure Obstacle where
  x : ℚ
  y : ℚ
  width : ℚ
  height : ℚ
deriving DecidableEq, Repr

/-- Embeds `rects_overlap` from app/planner.py: the cell is `[px, px+cell_w) × [py, py+cell_h)`
and the obstacle `[ox1, ox2) × [oy1, oy2)`; overlap is the negation of the four
separating comparisons. -/
def rects_overlap (px py cell_w cell_h : ℚ) (obs : Obstacle) : Bool :=
  let ox1 := obs.x
  let oy1 := obs.y
  let ox2 := obs.x + obs.width
  let oy2 := obs.y + obs.height
  let cx1 := px
  let cy1 := py
  let cx2 := px + cell_w
  let cy2 := py + cell_h
  !(decide (cx2 ≤ ox1) || decide (cx1 ≥ ox2) || decide (cy2 ≤ oy1) || decide (cy1 ≥ oy2))

/-- Python's built-in `round` to an integer: nearest integer, ties to even. -/
def roundHalfEven (q : ℚ) : ℤ :=
  if q - (⌊q⌋ : ℚ) < 1/2 then ⌊q⌋
  else if 1/2 < q - (⌊q⌋ : ℚ) then ⌊q⌋ + 1
  else if ⌊q⌋ % 2 = 0 then ⌊q⌋ else ⌊q⌋ + 1

/-- Python's `round(q, 4)`: round to 4 decimal digits, ties to even. -/
def round4 (q : ℚ) : ℚ := ((roundHalfEven (q * 10000) : ℚ)) / 10000

/-- Python's `round(q, 2)`: round to 2 decimal digits, ties to even
(used for `coverage_percentage` in app/main.py and app/db.py). -/
def round2 (q : ℚ) : ℚ := ((roundHalfEven (q * 100) : ℚ)) / 100

/-- Embeds `nx = max(1, int(round(wall_w / step)))` from app/planner.py (likewise `ny`). -/
def nSteps (len step : ℚ) : ℕ := (max 1 (roundHalfEven (len / step))).toNat

/-- The column visiting order of one row in app/planner.py:
`range(nx)` for even rows, `range(nx - 1, -1, -1)` for odd rows. -/
def rowIndices (nx : ℕ) (row : ℕ) : List ℕ :=
  if row % 2 = 0 then List.range nx else (List.range nx).reverse

/-- The `blocked` test of app/planner.py: the `for obs in obstacles … break` loop,
called on the cell whose centre is `(x, y)`. -/
def blockedCell (obstacles : List Obstacle) (cell_w cell_h x y : ℚ) : Bool :=
  obstacles.any (fun obs => rects_overlap (x - cell_w/2) (y - cell_h/2) cell_w cell_h obs)

/-- Embeds `cell_w = wall_w / nx` from app/planner.py. -/
def cellW (wall_w step : ℚ) : ℚ := wall_w / (nSteps wall_w step : ℚ)

/-- Embeds `cell_h = wall_h / ny` from app/planner.py. -/
def cellH (wall_h step : ℚ) : ℚ := wall_h / (nSteps wall_h step : ℚ)

/-- Embeds `x = (i + 0.5) * cell_w` from app/planner.py: the x-centre of column `i`. -/
def centroidX (wall_w step : ℚ) (i : ℕ) : ℚ := ((i : ℚ) + 1/2) * cellW wall_w step

/-- Embeds `y = (row + 0.5) * cell_h` from app/planner.py: the y-centre of `row`. -/
def centroidY (wall_h step : ℚ) (row : ℕ) : ℚ := ((row : ℚ) + 1/2) * cellH wall_h step

/-- One row of the planner loop in `generate_coverage_path`
(app/planner.py, lines 33–50): visit the row's columns in scan order,
skip blocked cells, emit rounded centroids. -/
def rowPath (wall_w wall_h : ℚ) (obstacles : List Obstacle) (step : ℚ) (row : ℕ) :
    List (ℚ × ℚ) :=
  ((rowIndices (nSteps wall_w step) row).filter (fun i =>
      !(blockedCell obstacles (cellW wall_w step) (cellH wall_h step)
          (centroidX wall_w step i) (centroidY wall_h step row)))).map
    (fun i => (round4 (centroidX wall_w step i), round4 (centroidY wall_h step row)))

/-- Embeds `generate_coverage_path` from app/planner.py: row-major boustrophedon sweep
over the `nx × ny` grid, emitting centroids of unblocked cells. -/
def generate_coverage_path (wall_w wall_h : ℚ) (obstacles : List Obstacle)
    (step : ℚ) : List (ℚ × ℚ) :=
  (List.range (nSteps wall_h step)).flatMap (rowPath wall_w wall_h obstacles step)

/-! ## Cache keying and the request pipeline (app/main.py) -/

/-- The Python sort key `lambda x: (x['x'], x['y'], x['width'], x['height'])`,
compared lexicographically as Python compares tuples. -/
def obsTup (o : Obstacle) : ℚ ×ₗ ℚ ×ₗ ℚ ×ₗ ℚ :=
  toLex (o.x, toLex (o.y, toLex (o.width, o.height)))

/-- Python's tuple comparison on the sort keys of two obstacles. -/
def obsLe (a b : Obstacle) : Prop := obsTup a ≤ obsTup b

instance : DecidableRel obsLe := fun a b =>
  inferInstanceAs (Decidable (obsTup a ≤ obsTup b))

/-- Embeds `sorted(obstacles, key=...)` from `get_cache_key` in app/main.py,
sorting by the tuple `(x, y, width, height)`.  Python's `sorted` is a stable sort, and
two obstacles with equal sort keys are equal (the key lists every field), so
any sort by `obsLe` produces the same list; we use insertion sort. -/
def sortObstacles (obstacles : List Obstacle) : List Obstacle :=
  List.insertionSort obsLe obstacles

/-- The content from which `get_cache_key` in app/main.py builds its key:
`f"{wall_width}_{wall_height}_{step}_{obstacles_str}"` with the obstacles
sorted.  The MD5 / JSON serialisation step is a function of exactly this
data, so the key is modelled by the canonical tuple itself. -/
structure CacheKey where
  wall_width : ℚ
  wall_height : ℚ
  step : ℚ
  canonObstacles : List Obstacle
deriving DecidableEq, Repr

/-- Embeds `get_cache_key` from app/main.py. -/
def get_cache_key (wall_width wall_height step : ℚ) (obstacles : List Obstacle) :
    CacheKey :=
  ⟨wall_width, wall_height, step, sortObstacles obstacles⟩

/-- The memoization key of `cached_generate_coverage_path` in app/main.py:
its arguments `(wall_width, wall_height, step, obstacles_str)` where
`obstacles_str = json.dumps(obstacles)` serialises the obstacle list in its
original request order (`json.dumps` is injective on obstacle lists, so the
key is modelled by the tuple carrying the raw list). -/
def lruKeyOf (wall_width wall_height step : ℚ) (obstacles : List Obstacle) :
    ℚ × ℚ × ℚ × List Obstacle :=
  (wall_width, wall_height, step, obstacles)

/-- Embeds `CACHE_TTL = 300` from app/main.py. -/
def CACHE_TTL : ℚ := 300

/-- The JSON keys of the `response_data` dict built by `generate_trajectory`
in app/main.py (lines 186–191). -/
def responseKeys : List String :=
  ["id", "path_length", "processing_time_ms", "coverage_percentage"]

/-- The `response_data` value of `generate_trajectory` in app/main.py. -/
structure Response where
  id : ℕ
  path_length : ℕ
  processing_time_ms : ℕ
  coverage_percentage : ℚ
deriving DecidableEq, Repr

/-- One entry of `trajectory_cache` in app/main.py:
`{'response': …, 'timestamp': …}`. -/
structure CacheEntry where
  response : Response
  timestamp : ℚ
deriving DecidableEq, Repr

/-- The mutable server state touched by `generate_trajectory`:
the `trajectory_cache` dict and the set of argument tuples already memoized
by the `lru_cache` on `cached_generate_coverage_path`. -/
structure ServerState where
  trajectory_cache : List (CacheKey × CacheEntry)
  lruKeys : List (ℚ × ℚ × ℚ × List Obstacle)
deriving DecidableEq

/-- Dict lookup on the association-list model of `trajectory_cache`. -/
def cacheLookup : List (CacheKey × CacheEntry) → CacheKey → Option CacheEntry
  | [], _ => none
  | (k, e) :: rest, key => if key = k then some e else cacheLookup rest key

/-- Dict assignment `trajectory_cache[cache_key] = …` (overwrites). -/
def cacheInsert (c : List (CacheKey × CacheEntry)) (k : CacheKey) (e : CacheEntry) :
    List (CacheKey × CacheEntry) :=
  (k, e) :: c

/-- A request body, mirroring `GenerateRequest` in app/models.py. -/
structure GenerateRequest where
  wall_width : ℚ
  wall_height : ℚ
  step : ℚ
  obstacles : List Obstacle
deriving DecidableEq, Repr

/-- The distinct HTTP-400 validation errors raised by `generate_trajectory`
in app/main.py (lines 138–158), with the offending obstacle index. -/
inductive ValErr where
  | invalidWall
  | invalidStep
  | stepTooLarge
  | obstacleDims (i : ℕ)
  | obstacleBounds (i : ℕ)
deriving DecidableEq, Repr

/-- The per-obstacle validation loop of `generate_trajectory`
(app/main.py, lines 152–158), `i` being the index of the first obstacle
in the list. -/
def validateObstacles (wall_width wall_height : ℚ) : List Obstacle → ℕ → Option ValErr
  | [], _ => none
  | obs :: rest, i =>
    if obs.width ≤ 0 ∨ obs.height ≤ 0 then some (.obstacleDims i)
    else if obs.x < 0 ∨ obs.y < 0 ∨ obs.x + obs.width > wall_width ∨
        obs.y + obs.height > wall_height then some (.obstacleBounds i)
    else validateObstacles wall_width wall_height rest (i + 1)

/-- The validation prefix of `generate_trajectory` (app/main.py, lines 138–158). -/
def validate (req : GenerateRequest) : Option ValErr :=
  if req.wall_width ≤ 0 ∨ req.wall_height ≤ 0 then some .invalidWall
  else if req.step ≤ 0 then some .invalidStep
  else if req.step > min req.wall_width req.wall_height then some .stepTooLarge
  else validateObstacles req.wall_width req.wall_height req.obstacles 0

/-- Failure of the SQLite insert inside `save_trajectory` (app/db.py). -/
inductive DbErr where
  | unavailable
  | ioError
deriving DecidableEq, Repr

/-- Embeds `save_trajectory` from app/db.py: the result of the `try` block is either
the `lastrowid` of a successful insert or an exception; the `except` branch
swallows the exception and returns the mock id `1`. -/
def save_trajectory (insertResult : Except DbErr ℕ) : ℕ :=
  match insertResult with
  | .ok tid => tid
  | .error _ => 1

/-- Embeds `sum(obs['width'] * obs['height'] for obs in obstacles)` from app/main.py. -/
def obstacleAreaSum (obstacles : List Obstacle) : ℚ :=
  (obstacles.map (fun o => o.width * o.height)).sum

/-- The `coverage_percentage` field computed in `generate_trajectory`
(app/main.py, line 190). -/
def coveragePercentage (wall_width wall_height : ℚ) (obstacles : List Obstacle) : ℚ :=
  round2 (((wall_width * wall_height - obstacleAreaSum obstacles) /
      (wall_width * wall_height)) * 100)

/-- What one run of the `/generate_trajectory` endpoint produced:
the JSON response, the new server state, whether `generate_coverage_path`
was actually executed (i.e. the `lru_cache` missed), and the path passed to
`save_trajectory` on the compute branch (`none` when served from
`trajectory_cache`). -/
structure GenResult where
  response : Response
  state : ServerState
  plannerInvoked : Bool
  savedPath : Option (List (ℚ × ℚ))
deriving DecidableEq

/-- The compute branch of `generate_trajectory` (app/main.py, lines 169–199):
generate the path through the memoized planner, persist it, build
`response_data` and store it in `trajectory_cache` under `key`.
`now` models `time.time()`, `procTime` the measured `processing_time` and
`dbOutcome` the fate of the SQLite insert inside `save_trajectory`. -/
def computeBranch (st : ServerState) (now : ℚ) (procTime : ℕ)
    (dbOutcome : Except DbErr ℕ) (req : GenerateRequest) (key : CacheKey) :
    GenResult :=
  let lruKey := lruKeyOf req.wall_width req.wall_height req.step req.obstacles
  let invoked : Bool := decide (lruKey ∉ st.lruKeys)
  let path := generate_coverage_path req.wall_width req.wall_height
      req.obstacles req.step
  let tid := save_trajectory dbOutcome
  let resp : Response :=
    { id := tid
      path_length := path.length
      processing_time_ms := procTime
      coverage_percentage :=
        coveragePercentage req.wall_width req.wall_height req.obstacles }
  { response := resp
    state :=
      { trajectory_cache := cacheInsert st.trajectory_cache key ⟨resp, now⟩
        lruKeys := if invoked then lruKey :: st.lruKeys else st.lruKeys }
    plannerInvoked := invoked
    savedPath := some path }

/-- Embeds `generate_trajectory` from app/main.py: validate, consult
`trajectory_cache` under the canonical key with the TTL test
`time.time() - cached_data['timestamp'] < CACHE_TTL`, and otherwise run the
compute branch. -/
def generate_trajectory (st : ServerState) (now : ℚ) (procTime : ℕ)
    (dbOutcome : Except DbErr ℕ) (req : GenerateRequest) :
    Except ValErr GenResult :=
  match validate req with
  | some e => .error e
  | none =>
    let key := get_cache_key req.wall_width req.wall_height req.step req.obstacles
    match cacheLookup st.trajectory_cache key with
    | some entry =>
      if now - entry.timestamp < CACHE_TTL then
        .ok { response := entry.response
              state := st
              plannerInvoked := false
              savedPath := none }
      else .ok (computeBranch st now procTime dbOutcome req key)
    | none => .ok (computeBranch st now procTime dbOutcome req key)

end PaintWall

/-! ## Planner lemmas -/
namespace PaintWall

lemma mem_rowIndices {nx row i : ℕ} : i ∈ rowIndices nx row ↔ i < nx := by
  unfold rowIndices
  split <;> simp

lemma rects_overlap_iff {px py cw ch : ℚ} {o : Obstacle} :
    rects_overlap px py cw ch o = true ↔
      o.x < px + cw ∧ px < o.x + o.width ∧ o.y < py + ch ∧ py < o.y + o.height := by
  simp [rects_overlap, not_or, not_le, ge_iff_le, and_assoc]

lemma cell_overlap_iff {cw ch : ℚ} {i j : ℕ} {o : Obstacle} :
    rects_overlap (((i : ℚ) + 1/2) * cw - cw/2) (((j : ℚ) + 1/2) * ch - ch/2) cw ch o = true ↔
      ((i : ℚ) * cw < o.x + o.width ∧ o.x < ((i : ℚ) + 1) * cw ∧
       (j : ℚ) * ch < o.y + o.height ∧ o.y < ((j : ℚ) + 1) * ch) := by
  rw [rects_overlap_iff]
  constructor <;> rintro ⟨h1, h2, h3, h4⟩ <;>
    exact ⟨by linarith, by linarith, by linarith, by linarith⟩

/-- Whether the cell `(i, row)` overlaps some obstacle, written with the
half-open-interval semantics of the specification. -/
def cellOverlapsObstacle (wall_w wall_h step : ℚ) (i row : ℕ) (o : Obstacle) : Prop :=
  (i : ℚ) * cellW wall_w step < o.x + o.width ∧
  o.x < ((i : ℚ) + 1) * cellW wall_w step ∧
  (row : ℚ) * cellH wall_h step < o.y + o.height ∧
  o.y < ((row : ℚ) + 1) * cellH wall_h step

lemma blockedCell_centroid_iff {obs : List Obstacle} {W H step : ℚ} {i j : ℕ} :
    blockedCell obs (cellW W step) (cellH H step)
        (centroidX W step i) (centroidY H step j) = false ↔
      ∀ o ∈ obs, ¬ cellOverlapsObstacle W H step i j o := by
  unfold blockedCell centroidX centroidY cellOverlapsObstacle
  rw [List.any_eq_false]
  constructor <;> intro h o ho <;> have ho2 := h o ho
  · rw [cell_overlap_iff] at ho2; exact ho2
  · rw [cell_overlap_iff]; exact ho2

lemma mem_rowPath {W H step : ℚ} {obs : List Obstacle} {row : ℕ} {p : ℚ × ℚ} :
    p ∈ rowPath W H obs step row ↔
      ∃ i, i < nSteps W step ∧
        blockedCell obs (cellW W step) (cellH H step)
          (centroidX W step i) (centroidY H step row) = false ∧
        p = (round4 (centroidX W step i), round4 (centroidY H step row)) := by
  unfold rowPath
  rw [List.mem_map]
  constructor
  · rintro ⟨i, hi, hpe⟩
    rw [List.mem_filter] at hi
    obtain ⟨hmem, hq⟩ := hi
    rw [mem_rowIndices] at hmem
    refine ⟨i, hmem, ?_, hpe.symm⟩
    simpa using hq
  · rintro ⟨i, hi, hbl, hp⟩
    refine ⟨i, ?_, hp.symm⟩
    rw [List.mem_filter, mem_rowIndices]
    exact ⟨hi, by simpa using hbl⟩

lemma mem_generate_iff {W H step : ℚ} {obs : List Obstacle} {p : ℚ × ℚ} :
    p ∈ generate_coverage_path W H obs step ↔
      ∃ i j, i < nSteps W step ∧ j < nSteps H step ∧
        (∀ o ∈ obs, ¬ cellOverlapsObstacle W H step i j o) ∧
        p = (round4 (centroidX W step i), round4 (centroidY H step j)) := by
  unfold generate_coverage_path
  rw [List.mem_flatMap]
  constructor
  · rintro ⟨j, hj, hmem⟩
    rw [List.mem_range] at hj
    obtain ⟨i, hi, hbl, hp⟩ := mem_rowPath.mp hmem
    exact ⟨i, j, hi, hj, blockedCell_centroid_iff.mp hbl, hp⟩
  · rintro ⟨i, j, hi, hj, hno, hp⟩
    refine ⟨j, List.mem_range.mpr hj, mem_rowPath.mpr ⟨i, hi, ?_, hp⟩⟩
    exact blockedCell_centroid_iff.mpr hno

end PaintWall

namespace PaintWall

lemma one_le_nSteps (len step : ℚ) : 1 ≤ nSteps len step := by
  unfold nSteps
  have h : (1:ℤ) ≤ max 1 (roundHalfEven (len / step)) := le_max_left _ _
  omega

/-- C1: for valid input, a point is emitted by `generate_coverage_path`
iff it is the rounded centroid of a grid cell whose half-open extent
`[i·cell_w, (i+1)·cell_w) × [j·cell_h, (j+1)·cell_h)` overlaps no obstacle,
where two half-open intervals `[a1,a2)` and `[b1,b2)` overlap iff
`a1 < b2 ∧ b1 < a2`.  In particular no emitted waypoint's cell overlaps an
obstacle, and a cell that only touches an obstacle boundary is still emitted. -/
theorem obstacle_exclusion (W H step : ℚ) (obs : List Obstacle) (p : ℚ × ℚ)
    (hW : 0 < W) (hH : 0 < H) (hstep : 0 < step)
    (hobs : ∀ o ∈ obs, 0 < o.width ∧ 0 < o.height ∧ 0 ≤ o.x ∧ 0 ≤ o.y ∧
        o.x + o.width ≤ W ∧ o.y + o.height ≤ H) :
    p ∈ generate_coverage_path W H obs step ↔
      ∃ i j, i < nSteps W step ∧ j < nSteps H step ∧
        p = (round4 (centroidX W step i), round4 (centroidY H step j)) ∧
        ∀ o ∈ obs,
          ¬((i : ℚ) * cellW W step < o.x + o.width ∧
            o.x < ((i : ℚ) + 1) * cellW W step ∧
            (j : ℚ) * cellH H step < o.y + o.height ∧
            o.y < ((j : ℚ) + 1) * cellH H step) := by
  rw [mem_generate_iff]
  unfold cellOverlapsObstacle
  constructor
  · rintro ⟨i, j, hi, hj, hno, hp⟩
    exact ⟨i, j, hi, hj, hp, hno⟩
  · rintro ⟨i, j, hi, hj, hp, hno⟩
    exact ⟨i, j, hi, hj, hno, hp⟩

theorem obstacle_exclusion_witness :
    ((0:ℚ) < 1 ∧ (0:ℚ) < 1/2) ∧
      ((3/4 : ℚ), (1/4 : ℚ)) ∈
        generate_coverage_path 1 1 [⟨0, 0, 1/2, 1/2⟩] (1/2) := by
  constructor
  · norm_num
  · refine (obstacle_exclusion 1 1 (1/2) [⟨0, 0, 1/2, 1/2⟩] _
      (by norm_num) (by norm_num) (by norm_num) ?_).mpr ⟨1, 0, ?_, ?_, ?_, ?_⟩
    · rintro o ho
      simp only [List.mem_singleton] at ho
      subst ho
      norm_num
    · norm_num [nSteps, roundHalfEven]
    · norm_num [nSteps, roundHalfEven]
    · have h2 : nSteps 1 (1/2) = 2 := by simp [nSteps, roundHalfEven]
      norm_num [centroidX, centroidY, cellW, cellH, h2, roundHalfEven, round4]
    · rintro o ho
      simp only [List.mem_singleton] at ho
      subst ho
      have h2 : nSteps 1 (1/2) = 2 := by simp [nSteps, roundHalfEven]
      norm_num [cellW, cellH, h2]

/-- C4: the planner discretizes the wall with
`nx = max(1, round(W/step))`, `ny = max(1, round(H/step))`,
`cell_w = W/nx`, `cell_h = H/ny`; every emitted waypoint is the centroid
`((i+0.5)·cell_w, (j+0.5)·cell_h)` of a cell of the grid with both
coordinates rounded to 4 decimal digits; and `nx, ny ≥ 1` always, so the
planner is total even when `step` exceeds a wall dimension. -/
theorem grid_discretization (W H step : ℚ) (obs : List Obstacle)
    (hW : 0 < W) (hH : 0 < H) (hstep : 0 < step) :
    nSteps W step = (max 1 (roundHalfEven (W / step))).toNat ∧
    nSteps H step = (max 1 (roundHalfEven (H / step))).toNat ∧
    1 ≤ nSteps W step ∧ 1 ≤ nSteps H step ∧
    cellW W step = W / (nSteps W step : ℚ) ∧
    cellH H step = H / (nSteps H step : ℚ) ∧
    ∀ p ∈ generate_coverage_path W H obs step,
      ∃ i j, i < nSteps W step ∧ j < nSteps H step ∧
        p = (round4 (((i : ℚ) + 1/2) * cellW W step),
             round4 (((j : ℚ) + 1/2) * cellH H step)) := by
  refine ⟨rfl, rfl, one_le_nSteps W step, one_le_nSteps H step, rfl, rfl, ?_⟩
  intro p hp
  obtain ⟨i, j, hi, hj, _, hp⟩ := mem_generate_iff.mp hp
  exact ⟨i, j, hi, hj, hp⟩

theorem grid_discretization_witness :
    ((0:ℚ) < 3 ∧ (0:ℚ) < 2 ∧ (0:ℚ) < 5) ∧
      (1 ≤ nSteps 3 5 ∧ 1 ≤ nSteps 2 5) := by
  refine ⟨by norm_num, ?_, ?_⟩
  · exact (grid_discretization 3 2 5 [] (by norm_num) (by norm_num) (by norm_num)).2.2.1
  · exact (grid_discretization 3 2 5 [] (by norm_num) (by norm_num) (by norm_num)).2.2.2.1

end PaintWall

namespace PaintWall

lemma floor_le_roundHalfEven (q : ℚ) : ⌊q⌋ ≤ roundHalfEven q := by
  unfold roundHalfEven
  split_ifs <;> omega

lemma roundHalfEven_le_floor_add_one (q : ℚ) : roundHalfEven q ≤ ⌊q⌋ + 1 := by
  unfold roundHalfEven
  split_ifs <;> omega

lemma roundHalfEven_mono {q r : ℚ} (h : q ≤ r) : roundHalfEven q ≤ roundHalfEven r := by
  rcases le_or_lt (⌊q⌋ + 1) ⌊r⌋ with hf | hf
  · calc roundHalfEven q ≤ ⌊q⌋ + 1 := roundHalfEven_le_floor_add_one q
      _ ≤ ⌊r⌋ := hf
      _ ≤ roundHalfEven r := floor_le_roundHalfEven r
  · have hqr : ⌊q⌋ = ⌊r⌋ := le_antisymm (Int.floor_le_floor h) (by omega)
    unfold roundHalfEven
    rw [hqr]
    have hfr : (⌊r⌋ : ℚ) ≤ (⌊r⌋ : ℚ) := le_refl _
    split_ifs <;> first | omega | linarith

lemma round4_mono {q r : ℚ} (h : q ≤ r) : round4 q ≤ round4 r := by
  unfold round4
  have h1 : q * 10000 ≤ r * 10000 := by linarith
  have h2 : (roundHalfEven (q * 10000) : ℚ) ≤ (roundHalfEven (r * 10000) : ℚ) :=
    Int.cast_le.mpr (roundHalfEven_mono h1)
  linarith

/-- The non-blocked columns of `row`, listed in ascending order. -/
def includedCols (wall_w wall_h : ℚ) (obstacles : List Obstacle) (step : ℚ)
    (row : ℕ) : List ℕ :=
  (List.range (nSteps wall_w step)).filter (fun i =>
    !(blockedCell obstacles (cellW wall_w step) (cellH wall_h step)
        (centroidX wall_w step i) (centroidY wall_h step row)))

lemma rowPath_even {W H step : ℚ} {obs : List Obstacle} {row : ℕ}
    (h : row % 2 = 0) :
    rowPath W H obs step row = (includedCols W H obs step row).map
      (fun i => (round4 (centroidX W step i), round4 (centroidY H step row))) := by
  unfold rowPath rowIndices includedCols
  rw [if_pos h]

lemma rowPath_odd {W H step : ℚ} {obs : List Obstacle} {row : ℕ}
    (h : row % 2 = 1) :
    rowPath W H obs step row = ((includedCols W H obs step row).reverse).map
      (fun i => (round4 (centroidX W step i), round4 (centroidY H step row))) := by
  unfold rowPath rowIndices includedCols
  rw [if_neg (by omega), List.filter_reverse]

lemma pairwise_lt_includedCols {W H step : ℚ} {obs : List Obstacle} {row : ℕ} :
    List.Pairwise (· < ·) (includedCols W H obs step row) :=
  (List.pairwise_lt_range _).filter _

lemma centroidX_le_of_le {W step : ℚ} (hW : 0 ≤ W) {i j : ℕ} (h : i ≤ j) :
    centroidX W step i ≤ centroidX W step j := by
  unfold centroidX
  have hcw : 0 ≤ cellW W step := by
    unfold cellW
    positivity
  have : (i : ℚ) ≤ (j : ℚ) := Nat.cast_le.mpr h
  nlinarith

end PaintWall

namespace PaintWall

/-- C2: the output decomposes into rows; an even-indexed row emits the
centroids of its included columns in ascending column order (so its emitted
x-coordinates are nondecreasing), an odd-indexed row in descending column
order (x-coordinates nonincreasing), and for any two consecutive rows that
both emit at least one waypoint the two x-orderings are reversed relative to
each other. -/
theorem zigzag_invariant (W H step : ℚ) (obs : List Obstacle)
    (hW : 0 < W) (hH : 0 < H) (hstep : 0 < step) :
    generate_coverage_path W H obs step =
      (List.range (nSteps H step)).flatMap (rowPath W H obs step) ∧
    (∀ row, row % 2 = 0 →
      rowPath W H obs step row = (includedCols W H obs step row).map
        (fun i => (round4 (centroidX W step i), round4 (centroidY H step row))) ∧
      List.Pairwise (· < ·) (includedCols W H obs step row) ∧
      List.Pairwise (· ≤ ·) ((rowPath W H obs step row).map Prod.fst)) ∧
    (∀ row, row % 2 = 1 →
      rowPath W H obs step row = ((includedCols W H obs step row).reverse).map
        (fun i => (round4 (centroidX W step i), round4 (centroidY H step row))) ∧
      List.Pairwise (· > ·) ((includedCols W H obs step row).reverse) ∧
      List.Pairwise (· ≥ ·) ((rowPath W H obs step row).map Prod.fst)) ∧
    (∀ row, rowPath W H obs step row ≠ [] → rowPath W H obs step (row + 1) ≠ [] →
      (List.Pairwise (· ≤ ·) ((rowPath W H obs step row).map Prod.fst) ∧
       List.Pairwise (· ≥ ·) ((rowPath W H obs step (row + 1)).map Prod.fst)) ∨
      (List.Pairwise (· ≥ ·) ((rowPath W H obs step row).map Prod.fst) ∧
       List.Pairwise (· ≤ ·) ((rowPath W H obs step (row + 1)).map Prod.fst))) := by
  have hxmono : ∀ {i j : ℕ}, i ≤ j →
      round4 (centroidX W step i) ≤ round4 (centroidX W step j) :=
    fun h => round4_mono (centroidX_le_of_le hW.le h)
  have heven : ∀ row, row % 2 = 0 →
      rowPath W H obs step row = (includedCols W H obs step row).map
        (fun i => (round4 (centroidX W step i), round4 (centroidY H step row))) ∧
      List.Pairwise (· < ·) (includedCols W H obs step row) ∧
      List.Pairwise (· ≤ ·) ((rowPath W H obs step row).map Prod.fst) := by
    intro row hr
    refine ⟨rowPath_even hr, pairwise_lt_includedCols, ?_⟩
    rw [rowPath_even hr, List.map_map]
    exact List.Pairwise.map _ (fun a b hab => hxmono hab.le) pairwise_lt_includedCols
  have hodd : ∀ row, row % 2 = 1 →
      rowPath W H obs step row = ((includedCols W H obs step row).reverse).map
        (fun i => (round4 (centroidX W step i), round4 (centroidY H step row))) ∧
      List.Pairwise (· > ·) ((includedCols W H obs step row).reverse) ∧
      List.Pairwise (· ≥ ·) ((rowPath W H obs step row).map Prod.fst) := by
    intro row hr
    have hrev : List.Pairwise (· > ·) ((includedCols W H obs step row).reverse) :=
      List.pairwise_reverse.mpr pairwise_lt_includedCols
    refine ⟨rowPath_odd hr, hrev, ?_⟩
    rw [rowPath_odd hr, List.map_map]
    exact List.Pairwise.map _ (fun a b hab => hxmono hab.le) hrev
  refine ⟨rfl, heven, hodd, ?_⟩
  intro row h1 h2
  rcases Nat.mod_two_eq_zero_or_one row with hr | hr
  · exact Or.inl ⟨(heven row hr).2.2, (hodd (row + 1) (by omega)).2.2⟩
  · exact Or.inr ⟨(hodd row hr).2.2, (heven (row + 1) (by omega)).2.2⟩

theorem zigzag_invariant_witness :
    ((0:ℚ) < 2 ∧ (0:ℚ) < 1 ∧ (0:ℚ) < 2/10) ∧
      List.Pairwise (· ≤ ·) ((rowPath 2 1 [] (2/10) 0).map Prod.fst) :=
  ⟨by norm_num,
   ((zigzag_invariant 2 1 (2/10) [] (by norm_num) (by norm_num)
      (by norm_num)).2.1 0 rfl).2.2⟩

end PaintWall

namespace PaintWall

lemma length_rowIndices {nx row : ℕ} : (rowIndices nx row).length = nx := by
  unfold rowIndices
  split <;> simp

lemma rowPath_length_le {W H step : ℚ} {obs : List Obstacle} {row : ℕ} :
    (rowPath W H obs step row).length ≤ nSteps W step := by
  unfold rowPath
  rw [List.length_map]
  calc (List.filter _ (rowIndices (nSteps W step) row)).length
      ≤ (rowIndices (nSteps W step) row).length := List.length_filter_le _ _
    _ = nSteps W step := length_rowIndices

lemma length_generate {W H step : ℚ} {obs : List Obstacle} :
    (generate_coverage_path W H obs step).length =
      ((List.range (nSteps H step)).map
        (fun row => (rowPath W H obs step row).length)).sum := by
  unfold generate_coverage_path
  rw [List.length_flatMap]
  rfl

lemma nSteps_cast_pos (len step : ℚ) : (0 : ℚ) < (nSteps len step : ℚ) := by
  have h := one_le_nSteps len step
  exact_mod_cast Nat.lt_of_lt_of_le Nat.zero_lt_one h

lemma cellW_pos {W step : ℚ} (hW : 0 < W) : 0 < cellW W step := by
  unfold cellW
  exact div_pos hW (nSteps_cast_pos W step)

lemma cellH_pos {H step : ℚ} (hH : 0 < H) : 0 < cellH H step := by
  unfold cellH
  exact div_pos hH (nSteps_cast_pos H step)

/-- A valid obstacle blocks the grid cell containing its bottom-left corner. -/
lemma exists_blocked_cell {W H step : ℚ} (hW : 0 < W) (hH : 0 < H)
    {o : Obstacle} (how : 0 < o.width) (hoh : 0 < o.height)
    (hox : 0 ≤ o.x) (hoy : 0 ≤ o.y)
    (hoxw : o.x + o.width ≤ W) (hoyh : o.y + o.height ≤ H) :
    ∃ i j, i < nSteps W step ∧ j < nSteps H step ∧
      cellOverlapsObstacle W H step i j o := by
  have hcw := @cellW_pos W step hW
  have hch := @cellH_pos H step hH
  have hfx : (0 : ℤ) ≤ ⌊o.x / cellW W step⌋ :=
    Int.floor_nonneg.mpr (div_nonneg hox hcw.le)
  have hfy : (0 : ℤ) ≤ ⌊o.y / cellH H step⌋ :=
    Int.floor_nonneg.mpr (div_nonneg hoy hch.le)
  refine ⟨(⌊o.x / cellW W step⌋).toNat, (⌊o.y / cellH H step⌋).toNat, ?_, ?_, ?_⟩
  · rw [Int.toNat_lt hfx, Int.floor_lt]
    rw [div_lt_iff₀ hcw]
    calc o.x < o.x + o.width := by linarith
      _ ≤ W := hoxw
      _ = (nSteps W step : ℚ) * cellW W step := by
          unfold cellW
          rw [mul_div_cancel₀ _ (nSteps_cast_pos W step).ne']
      _ = ((nSteps W step : ℤ) : ℚ) * cellW W step := by push_cast; ring
  · rw [Int.toNat_lt hfy, Int.floor_lt]
    rw [div_lt_iff₀ hch]
    calc o.y < o.y + o.height := by linarith
      _ ≤ H := hoyh
      _ = (nSteps H step : ℚ) * cellH H step := by
          unfold cellH
          rw [mul_div_cancel₀ _ (nSteps_cast_pos H step).ne']
      _ = ((nSteps H step : ℤ) : ℚ) * cellH H step := by push_cast; ring
  · have hxcast : (((⌊o.x / cellW W step⌋).toNat : ℕ) : ℚ) = ((⌊o.x / cellW W step⌋ : ℤ) : ℚ) := by
      rw_mod_cast [Int.toNat_of_nonneg hfx]
    have hycast : (((⌊o.y / cellH H step⌋).toNat : ℕ) : ℚ) = ((⌊o.y / cellH H step⌋ : ℤ) : ℚ) := by
      rw_mod_cast [Int.toNat_of_nonneg hfy]
    have hx1 : ((⌊o.x / cellW W step⌋ : ℤ) : ℚ) * cellW W step ≤ o.x := by
      have := mul_le_mul_of_nonneg_right (Int.floor_le (o.x / cellW W step)) hcw.le
      rwa [div_mul_cancel₀ _ hcw.ne'] at this
    have hx2 : o.x < (((⌊o.x / cellW W step⌋ : ℤ) : ℚ) + 1) * cellW W step := by
      have := mul_lt_mul_of_pos_right (Int.lt_floor_add_one (o.x / cellW W step)) hcw
      rwa [div_mul_cancel₀ _ hcw.ne'] at this
    have hy1 : ((⌊o.y / cellH H step⌋ : ℤ) : ℚ) * cellH H step ≤ o.y := by
      have := mul_le_mul_of_nonneg_right (Int.floor_le (o.y / cellH H step)) hch.le
      rwa [div_mul_cancel₀ _ hch.ne'] at this
    have hy2 : o.y < (((⌊o.y / cellH H step⌋ : ℤ) : ℚ) + 1) * cellH H step := by
      have := mul_lt_mul_of_pos_right (Int.lt_floor_add_one (o.y / cellH H step)) hch
      rwa [div_mul_cancel₀ _ hch.ne'] at this
    refine ⟨?_, ?_, ?_, ?_⟩
    · rw [hxcast]; linarith
    · rw [hxcast]; linarith
    · rw [hycast]; linarith
    · rw [hycast]; linarith

end PaintWall

namespace PaintWall

lemma rowPath_length_of_nil {W H step : ℚ} {row : ℕ} :
    (rowPath W H [] step row).length = nSteps W step := by
  unfold rowPath
  rw [List.length_map]
  have : (fun i => !(blockedCell [] (cellW W step) (cellH H step)
      (centroidX W step i) (centroidY H step row))) = fun _ => true := by
    funext i
    rfl
  rw [this, List.filter_true, length_rowIndices]

lemma rowPath_length_lt {W H step : ℚ} {obs : List Obstacle} {i row : ℕ}
    (hi : i < nSteps W step) {o : Obstacle} (ho : o ∈ obs)
    (hov : cellOverlapsObstacle W H step i row o) :
    (rowPath W H obs step row).length < nSteps W step := by
  unfold rowPath
  rw [List.length_map]
  have hlt : (List.filter (fun i => !(blockedCell obs (cellW W step) (cellH H step)
      (centroidX W step i) (centroidY H step row)))
      (rowIndices (nSteps W step) row)).length <
      (rowIndices (nSteps W step) row).length := by
    refine List.length_filter_lt_length_iff_exists.mpr ⟨i, mem_rowIndices.mpr hi, ?_⟩
    intro hcontra
    rw [Bool.not_eq_true'] at hcontra
    exact blockedCell_centroid_iff.mp hcontra o ho hov
  rw [length_rowIndices] at hlt
  exact hlt

/-- C5: for valid input the number of emitted waypoints is at most
`nx · ny`, with equality exactly when the obstacle list is empty. -/
theorem monotonic_count_bound (W H step : ℚ) (obs : List Obstacle)
    (hW : 0 < W) (hH : 0 < H) (hstep : 0 < step)
    (hobs : ∀ o ∈ obs, 0 < o.width ∧ 0 < o.height ∧ 0 ≤ o.x ∧ 0 ≤ o.y ∧
        o.x + o.width ≤ W ∧ o.y + o.height ≤ H) :
    (generate_coverage_path W H obs step).length ≤ nSteps W step * nSteps H step ∧
    ((generate_coverage_path W H obs step).length = nSteps W step * nSteps H step ↔
      obs = []) := by
  have hub : (generate_coverage_path W H obs step).length ≤
      nSteps W step * nSteps H step := by
    rw [length_generate]
    have h1 : ((List.range (nSteps H step)).map
        (fun row => (rowPath W H obs step row).length)).sum ≤
        ((List.range (nSteps H step)).map
          (fun row => (rowPath W H obs step row).length)).length • nSteps W step := by
      refine List.sum_le_card_nsmul _ _ ?_
      intro x hx
      obtain ⟨row, _, hrow⟩ := List.mem_map.mp hx
      exact hrow ▸ rowPath_length_le
    rw [List.length_map, List.length_range, smul_eq_mul] at h1
    exact le_trans h1 (le_of_eq (Nat.mul_comm _ _))
  refine ⟨hub, ?_, ?_⟩
  · intro hlen
    by_contra hne
    obtain ⟨o, rest, rfl⟩ : ∃ o rest, obs = o :: rest := by
      cases obs with
      | nil => exact absurd rfl hne
      | cons o rest => exact ⟨o, rest, rfl⟩
    obtain ⟨hw1, hh1, hx1, hy1, hxw1, hyh1⟩ := hobs o (List.mem_cons_self o rest)
    obtain ⟨i, j, hi, hj, hov⟩ :=
      @exists_blocked_cell W H step hW hH o hw1 hh1 hx1 hy1 hxw1 hyh1
    have hstrict : (generate_coverage_path W H (o :: rest) step).length <
        nSteps W step * nSteps H step := by
      rw [length_generate]
      have h2 : ((List.range (nSteps H step)).map
          (fun row => (rowPath W H (o :: rest) step row).length)).sum <
          ((List.range (nSteps H step)).map
            (fun _ => nSteps W step)).sum := by
        refine List.sum_lt_sum _ _ (fun r _ => rowPath_length_le) ⟨j, ?_, ?_⟩
        · exact List.mem_range.mpr hj
        · exact rowPath_length_lt hi (List.mem_cons_self o rest) hov
      have h3 : ((List.range (nSteps H step)).map
          (fun _ => nSteps W step)).sum = nSteps W step * nSteps H step := by
        rw [List.map_const', List.sum_replicate, List.length_range, smul_eq_mul,
          Nat.mul_comm]
      rw [h3] at h2
      exact h2
    exact absurd hlen (Nat.ne_of_lt hstrict)
  · rintro rfl
    rw [length_generate]
    have : ((List.range (nSteps H step)).map
        (fun row => (rowPath W H [] step row).length)).sum =
        ((List.range (nSteps H step)).map (fun _ => nSteps W step)).sum := by
      congr 1
      exact List.map_congr_left (fun row _ => rowPath_length_of_nil)
    rw [this, List.map_const', List.sum_replicate, List.length_range, smul_eq_mul]
    exact Nat.mul_comm _ _

theorem monotonic_count_bound_witness :
    ((0:ℚ) < 1 ∧ (0:ℚ) < 1 ∧ (0:ℚ) < 1/2) ∧
      (generate_coverage_path 1 1 [⟨0, 0, 1/2, 1/2⟩] (1/2)).length ≤
        nSteps 1 (1/2) * nSteps 1 (1/2) ∧
      ¬((generate_coverage_path 1 1 [⟨0, 0, 1/2, 1/2⟩] (1/2)).length =
        nSteps 1 (1/2) * nSteps 1 (1/2)) := by
  have h := monotonic_count_bound 1 1 (1/2) [⟨0, 0, 1/2, 1/2⟩]
    (by norm_num) (by norm_num) (by norm_num)
    (by rintro o ho
        simp only [List.mem_singleton] at ho
        subst ho
        norm_num)
  refine ⟨by norm_num, h.1, ?_⟩
  intro heq
  exact List.cons_ne_nil _ _ (h.2.mp heq)

end PaintWall

namespace PaintWall

/-- An obstacle passes the per-obstacle checks of `generate_trajectory`. -/
def obstacleOk (W H : ℚ) (o : Obstacle) : Prop :=
  0 < o.width ∧ 0 < o.height ∧ 0 ≤ o.x ∧ 0 ≤ o.y ∧
    o.x + o.width ≤ W ∧ o.y + o.height ≤ H

lemma validateObstacles_eq_none_iff {W H : ℚ} {obs : List Obstacle} {k : ℕ} :
    validateObstacles W H obs k = none ↔ ∀ o ∈ obs, obstacleOk W H o := by
  induction obs generalizing k with
  | nil => simp [validateObstacles]
  | cons o rest ih =>
    simp only [validateObstacles, List.mem_cons]
    split_ifs with h1 h2
    · refine ⟨fun h => absurd h (by simp), fun hall => ?_⟩
      obtain ⟨hw, hh, -⟩ := hall o (Or.inl rfl)
      rcases h1 with h | h <;> linarith
    · refine ⟨fun h => absurd h (by simp), fun hall => ?_⟩
      obtain ⟨-, -, hx, hy, hxw, hyh⟩ := hall o (Or.inl rfl)
      rcases h2 with h | h | h | h <;> linarith
    · rw [ih]
      constructor
      · rintro hall o' (rfl | ho')
        · rw [not_or] at h1 h2
          push_neg at h1 h2
          exact ⟨h1.1, h1.2, h2.1, h2.2.1, h2.2.2.1, h2.2.2.2⟩
        · exact hall o' ho'
      · intro hall o' ho'
        exact hall o' (Or.inr ho')

lemma validate_eq_none_iff {req : GenerateRequest} :
    validate req = none ↔
      (0 < req.wall_width ∧ 0 < req.wall_height ∧ 0 < req.step ∧
       req.step ≤ min req.wall_width req.wall_height ∧
       ∀ o ∈ req.obstacles, obstacleOk req.wall_width req.wall_height o) := by
  unfold validate
  split_ifs with h1 h2 h3
  · refine ⟨fun h => absurd h (by simp), fun hall => ?_⟩
    rcases h1 with h | h <;> [exact absurd hall.1 (by linarith); exact absurd hall.2.1 (by linarith)]
  · refine ⟨fun h => absurd h (by simp), fun hall => absurd hall.2.2.1 (by linarith)⟩
  · refine ⟨fun h => absurd h (by simp), fun hall => absurd hall.2.2.2.1 (by linarith)⟩
  · rw [validateObstacles_eq_none_iff]
    rw [not_or] at h1
    push_neg at h1 h2 h3
    constructor
    · intro hall
      exact ⟨h1.1, h1.2, h2, h3, hall⟩
    · intro hall
      exact hall.2.2.2.2

lemma generate_trajectory_error_iff {st : ServerState} {now : ℚ} {procTime : ℕ}
    {dbOutcome : Except DbErr ℕ} {req : GenerateRequest} :
    (∃ e, generate_trajectory st now procTime dbOutcome req = .error e) ↔
      validate req ≠ none := by
  unfold generate_trajectory
  cases h : validate req with
  | some e => simp [h]
  | none =>
    simp only [h]
    constructor
    · rintro ⟨e, he⟩
      rcases hc : cacheLookup st.trajectory_cache
          (get_cache_key req.wall_width req.wall_height req.step req.obstacles) with - | entry <;>
        rw [hc] at he <;> dsimp only at he
      · exact Except.noConfusion he
      · split_ifs at he <;> exact Except.noConfusion he
    · intro hne
      exact absurd rfl hne

/-- C8: the endpoint fails with a validation error iff the wall
dimensions or step are non-positive, the step exceeds the smaller wall
dimension, some obstacle has non-positive width or height, or some obstacle
extends outside the wall; requests satisfying every constraint never raise
a validation error. -/
theorem validation_error_iff (st : ServerState) (now : ℚ) (procTime : ℕ)
    (dbOutcome : Except DbErr ℕ) (req : GenerateRequest) :
    (∃ e, generate_trajectory st now procTime dbOutcome req = .error e) ↔
      (req.wall_width ≤ 0 ∨ req.wall_height ≤ 0 ∨ req.step ≤ 0 ∨
       req.step > min req.wall_width req.wall_height ∨
       ∃ o ∈ req.obstacles,
         (o.width ≤ 0 ∨ o.height ≤ 0 ∨ o.x < 0 ∨ o.y < 0 ∨
          o.x + o.width > req.wall_width ∨ o.y + o.height > req.wall_height)) := by
  rw [generate_trajectory_error_iff, Ne, validate_eq_none_iff]
  constructor
  · intro h
    by_cases h1 : 0 < req.wall_width
    case neg => exact Or.inl (le_of_not_lt h1)
    by_cases h2 : 0 < req.wall_height
    case neg => exact Or.inr (Or.inl (le_of_not_lt h2))
    by_cases h3 : 0 < req.step
    case neg => exact Or.inr (Or.inr (Or.inl (le_of_not_lt h3)))
    by_cases h4 : req.step ≤ min req.wall_width req.wall_height
    case neg => exact Or.inr (Or.inr (Or.inr (Or.inl (lt_of_not_le h4))))
    have hE : ¬ ∀ o ∈ req.obstacles, obstacleOk req.wall_width req.wall_height o :=
      fun hE => h ⟨h1, h2, h3, h4, hE⟩
    push_neg at hE
    obtain ⟨o, ho, hbad⟩ := hE
    refine Or.inr (Or.inr (Or.inr (Or.inr ⟨o, ho, ?_⟩)))
    unfold obstacleOk at hbad
    push_neg at hbad
    by_cases hw : 0 < o.width
    case neg => exact Or.inl (le_of_not_lt hw)
    by_cases hh : 0 < o.height
    case neg => exact Or.inr (Or.inl (le_of_not_lt hh))
    by_cases hx : 0 ≤ o.x
    case neg => exact Or.inr (Or.inr (Or.inl (lt_of_not_le hx)))
    by_cases hy : 0 ≤ o.y
    case neg => exact Or.inr (Or.inr (Or.inr (Or.inl (lt_of_not_le hy))))
    by_cases hxw : o.x + o.width ≤ req.wall_width
    case neg => exact Or.inr (Or.inr (Or.inr (Or.inr (Or.inl (lt_of_not_le hxw)))))
    exact Or.inr (Or.inr (Or.inr (Or.inr (Or.inr (hbad hw hh hx hy hxw)))))
  · rintro (h | h | h | h | ⟨o, ho, hbad⟩) ⟨hA, hB, hC, hD, hE⟩
    · linarith
    · linarith
    · linarith
    · linarith
    · obtain ⟨hw, hh, hx, hy, hxw, hyh⟩ := hE o ho
      rcases hbad with h | h | h | h | h | h <;> linarith

end PaintWall

namespace PaintWall

lemma generate_trajectory_miss {st : ServerState} {now : ℚ} {procTime : ℕ}
    {dbOutcome : Except DbErr ℕ} {req : GenerateRequest}
    (hv : validate req = none)
    (hmiss : cacheLookup st.trajectory_cache
      (get_cache_key req.wall_width req.wall_height req.step req.obstacles) = none) :
    generate_trajectory st now procTime dbOutcome req =
      .ok (computeBranch st now procTime dbOutcome req
        (get_cache_key req.wall_width req.wall_height req.step req.obstacles)) := by
  unfold generate_trajectory
  rw [hv]
  dsimp only
  rw [hmiss]

lemma generate_trajectory_hit {st : ServerState} {now : ℚ} {procTime : ℕ}
    {dbOutcome : Except DbErr ℕ} {req : GenerateRequest} {entry : CacheEntry}
    (hv : validate req = none)
    (hfound : cacheLookup st.trajectory_cache
      (get_cache_key req.wall_width req.wall_height req.step req.obstacles) = some entry)
    (ht : now - entry.timestamp < CACHE_TTL) :
    generate_trajectory st now procTime dbOutcome req =
      .ok { response := entry.response
            state := st
            plannerInvoked := false
            savedPath := none } := by
  unfold generate_trajectory
  rw [hv]
  dsimp only
  rw [hfound]
  dsimp only
  rw [if_pos ht]

lemma generate_trajectory_expired {st : ServerState} {now : ℚ} {procTime : ℕ}
    {dbOutcome : Except DbErr ℕ} {req : GenerateRequest} {entry : CacheEntry}
    (hv : validate req = none)
    (hfound : cacheLookup st.trajectory_cache
      (get_cache_key req.wall_width req.wall_height req.step req.obstacles) = some entry)
    (ht : ¬(now - entry.timestamp < CACHE_TTL)) :
    generate_trajectory st now procTime dbOutcome req =
      .ok (computeBranch st now procTime dbOutcome req
        (get_cache_key req.wall_width req.wall_height req.step req.obstacles)) := by
  unfold generate_trajectory
  rw [hv]
  dsimp only
  rw [hfound]
  dsimp only
  rw [if_neg ht]

lemma computeBranch_response {st : ServerState} {now : ℚ} {procTime : ℕ}
    {dbOutcome : Except DbErr ℕ} {req : GenerateRequest} {key : CacheKey} :
    (computeBranch st now procTime dbOutcome req key).response =
      { id := save_trajectory dbOutcome
        path_length := (generate_coverage_path req.wall_width req.wall_height
          req.obstacles req.step).length
        processing_time_ms := procTime
        coverage_percentage :=
          coveragePercentage req.wall_width req.wall_height req.obstacles } := rfl

lemma computeBranch_savedPath {st : ServerState} {now : ℚ} {procTime : ℕ}
    {dbOutcome : Except DbErr ℕ} {req : GenerateRequest} {key : CacheKey} :
    (computeBranch st now procTime dbOutcome req key).savedPath =
      some (generate_coverage_path req.wall_width req.wall_height
        req.obstacles req.step) := rfl

/-- Any run of the endpoint whose result records a saved path took the
compute branch, and its response fields are determined by the request and
the database outcome alone. -/
lemma ok_compute_spec {st : ServerState} {now : ℚ} {procTime : ℕ}
    {dbOutcome : Except DbErr ℕ} {req : GenerateRequest} {r : GenResult}
    (h : generate_trajectory st now procTime dbOutcome req = .ok r)
    (hp : r.savedPath ≠ none) :
    r.savedPath = some (generate_coverage_path req.wall_width req.wall_height
      req.obstacles req.step) ∧
    r.response.path_length = (generate_coverage_path req.wall_width
      req.wall_height req.obstacles req.step).length ∧
    r.response.coverage_percentage =
      coveragePercentage req.wall_width req.wall_height req.obstacles ∧
    r.response.id = save_trajectory dbOutcome ∧
    r.response.processing_time_ms = procTime := by
  cases hv : validate req with
  | some e =>
    rw [generate_trajectory, hv] at h
    exact Except.noConfusion h
  | none =>
    cases hc : cacheLookup st.trajectory_cache
        (get_cache_key req.wall_width req.wall_height req.step req.obstacles) with
    | none =>
      rw [generate_trajectory_miss hv hc] at h
      obtain rfl := (Except.ok.injEq _ _).mp h
      exact ⟨computeBranch_savedPath, rfl, rfl, rfl, rfl⟩
    | some entry =>
      by_cases ht : now - entry.timestamp < CACHE_TTL
      · rw [generate_trajectory_hit hv hc ht] at h
        obtain rfl := (Except.ok.injEq _ _).mp h
        exact absurd rfl hp
      · rw [generate_trajectory_expired hv hc ht] at h
        obtain rfl := (Except.ok.injEq _ _).mp h
        exact ⟨computeBranch_savedPath, rfl, rfl, rfl, rfl⟩

end PaintWall

namespace PaintWall

/-- C6: the planner is deterministic — whenever two endpoint runs with
the same request actually compute a path (whatever the cache states, clock
times, timings and database outcomes), the computed waypoint sequences are
identical and identically ordered, both equal to
`generate_coverage_path` of the request. -/
theorem determinism (req : GenerateRequest) (st1 st2 : ServerState)
    (t1 t2 : ℚ) (pt1 pt2 : ℕ) (db1 db2 : Except DbErr ℕ) (r1 r2 : GenResult)
    (p1 p2 : List (ℚ × ℚ))
    (h1 : generate_trajectory st1 t1 pt1 db1 req = .ok r1)
    (h2 : generate_trajectory st2 t2 pt2 db2 req = .ok r2)
    (hp1 : r1.savedPath = some p1) (hp2 : r2.savedPath = some p2) :
    p1 = generate_coverage_path req.wall_width req.wall_height
      req.obstacles req.step ∧
    p1 = p2 ∧
    r1.response.path_length = r2.response.path_length := by
  have s1 := ok_compute_spec h1 (by rw [hp1]; exact Option.some_ne_none _)
  have s2 := ok_compute_spec h2 (by rw [hp2]; exact Option.some_ne_none _)
  have e1 : p1 = generate_coverage_path req.wall_width req.wall_height
      req.obstacles req.step := by
    have := s1.1
    rw [hp1] at this
    exact Option.some_inj.mp this
  have e2 : p2 = generate_coverage_path req.wall_width req.wall_height
      req.obstacles req.step := by
    have := s2.1
    rw [hp2] at this
    exact Option.some_inj.mp this
  refine ⟨e1, e2 ▸ e1, ?_⟩
  rw [s1.2.1, s2.2.1]

theorem determinism_witness :
    (computeBranch ⟨[], []⟩ 0 0 (.ok 7) ⟨1, 1, 1, []⟩
        (get_cache_key 1 1 1 [])).response.path_length =
      (computeBranch ⟨[], []⟩ 500 3 (.ok 9) ⟨1, 1, 1, []⟩
        (get_cache_key 1 1 1 [])).response.path_length := by
  have hv : validate ⟨1, 1, 1, []⟩ = none := by
    norm_num [validate, validateObstacles]
  have hmiss : cacheLookup (ServerState.mk [] []).trajectory_cache
      (get_cache_key 1 1 1 []) = none := rfl
  have h1 := @generate_trajectory_miss ⟨[], []⟩ 0 0 (.ok 7) ⟨1, 1, 1, []⟩ hv hmiss
  have h2 := @generate_trajectory_miss ⟨[], []⟩ 500 3 (.ok 9) ⟨1, 1, 1, []⟩ hv hmiss
  exact (determinism ⟨1, 1, 1, []⟩ ⟨[], []⟩ ⟨[], []⟩ 0 500 0 3 (.ok 7) (.ok 9)
    _ _ _ _ h1 h2 computeBranch_savedPath computeBranch_savedPath).2.2

/-- C7, counterexample: the `response_data` dict returned by
`generate_trajectory` carries no `waypoints` field, contradicting the claim
that the result contains the waypoint sequence. -/
theorem response_has_no_waypoints_field : "waypoints" ∉ responseKeys := by
  decide

/-- C7, amended: a response produced by an actual computation reports
`path_length` equal to the number of generated waypoints and
`coverage_percentage` equal to
`(W·H − Σ obstacle areas)/(W·H) · 100` rounded to 2 decimals, but the
response does not itself contain the waypoints (its JSON keys are only
`id`, `path_length`, `processing_time_ms`, `coverage_percentage`). -/
theorem response_contract (st : ServerState) (now : ℚ) (procTime : ℕ)
    (dbOutcome : Except DbErr ℕ) (req : GenerateRequest) (r : GenResult)
    (h : generate_trajectory st now procTime dbOutcome req = .ok r)
    (hp : r.savedPath ≠ none) :
    r.response.path_length = (generate_coverage_path req.wall_width
      req.wall_height req.obstacles req.step).length ∧
    r.response.coverage_percentage =
      round2 (((req.wall_width * req.wall_height - obstacleAreaSum req.obstacles) /
        (req.wall_width * req.wall_height)) * 100) ∧
    "waypoints" ∉ responseKeys := by
  have s := ok_compute_spec h hp
  exact ⟨s.2.1, s.2.2.1, by decide⟩

theorem response_contract_witness :
    (computeBranch ⟨[], []⟩ 0 0 (.ok 7) ⟨1, 1, 1, []⟩
        (get_cache_key 1 1 1 [])).response.coverage_percentage =
      round2 (((1 * 1 - obstacleAreaSum []) / (1 * 1)) * 100) := by
  have hv : validate ⟨1, 1, 1, []⟩ = none := by
    norm_num [validate, validateObstacles]
  have hmiss : cacheLookup (ServerState.mk [] []).trajectory_cache
      (get_cache_key 1 1 1 []) = none := rfl
  have h1 := @generate_trajectory_miss ⟨[], []⟩ 0 0 (.ok 7) ⟨1, 1, 1, []⟩ hv hmiss
  exact (response_contract ⟨[], []⟩ 0 0 (.ok 7) ⟨1, 1, 1, []⟩ _ h1
    (by rw [computeBranch_savedPath]; exact Option.some_ne_none _)).2.1

/-- C9: a cache entry inserted at time `t` is returned for any lookup
with the same canonical key strictly before `t + 300` and treated as a miss
at or after `t + 300`, in which case the result is recomputed and a fresh
entry (timestamped with the lookup time) is stored. -/
theorem ttl_expiry (st : ServerState) (now : ℚ) (procTime : ℕ)
    (dbOutcome : Except DbErr ℕ) (req : GenerateRequest) (entry : CacheEntry)
    (hv : validate req = none)
    (hfound : cacheLookup st.trajectory_cache
      (get_cache_key req.wall_width req.wall_height req.step req.obstacles) =
        some entry) :
    (now < entry.timestamp + CACHE_TTL →
      generate_trajectory st now procTime dbOutcome req =
        .ok { response := entry.response
              state := st
              plannerInvoked := false
              savedPath := none }) ∧
    (entry.timestamp + CACHE_TTL ≤ now →
      generate_trajectory st now procTime dbOutcome req =
        .ok (computeBranch st now procTime dbOutcome req
          (get_cache_key req.wall_width req.wall_height req.step req.obstacles)) ∧
      (computeBranch st now procTime dbOutcome req
          (get_cache_key req.wall_width req.wall_height req.step
            req.obstacles)).savedPath =
        some (generate_coverage_path req.wall_width req.wall_height
          req.obstacles req.step) ∧
      cacheLookup (computeBranch st now procTime dbOutcome req
          (get_cache_key req.wall_width req.wall_height req.step
            req.obstacles)).state.trajectory_cache
          (get_cache_key req.wall_width req.wall_height req.step req.obstacles) =
        some ⟨(computeBranch st now procTime dbOutcome req
          (get_cache_key req.wall_width req.wall_height req.step
            req.obstacles)).response, now⟩) := by
  constructor
  · intro ht
    exact generate_trajectory_hit hv hfound (by linarith)
  · intro ht
    refine ⟨generate_trajectory_expired hv hfound (by intro hc; linarith),
      computeBranch_savedPath, ?_⟩
    unfold computeBranch cacheInsert cacheLookup
    rw [if_pos rfl]

theorem ttl_expiry_witness :
    generate_trajectory
        ⟨[(get_cache_key 1 1 1 [], ⟨⟨5, 1, 0, 100⟩, 0⟩)], []⟩ 10 0 (.ok 7)
        ⟨1, 1, 1, []⟩ =
      .ok { response := ⟨5, 1, 0, 100⟩
            state := ⟨[(get_cache_key 1 1 1 [], ⟨⟨5, 1, 0, 100⟩, 0⟩)], []⟩
            plannerInvoked := false
            savedPath := none } := by
  have hv : validate ⟨1, 1, 1, []⟩ = none := by
    norm_num [validate, validateObstacles]
  have hfound : cacheLookup
      (ServerState.mk [(get_cache_key 1 1 1 [], ⟨⟨5, 1, 0, 100⟩, 0⟩)] []).trajectory_cache
      (get_cache_key 1 1 1 []) = some ⟨⟨5, 1, 0, 100⟩, 0⟩ := by
    unfold cacheLookup
    rw [if_pos rfl]
  exact (ttl_expiry _ 10 0 (.ok 7) ⟨1, 1, 1, []⟩ ⟨⟨5, 1, 0, 100⟩, 0⟩ hv hfound).1
    (by norm_num [CACHE_TTL])

/-- C10: `save_trajectory` swallows any persistence exception and
returns the mock trajectory id `1`, so a run of the endpoint whose database
insert fails still returns a success response whose `id` field is `1`. -/
theorem db_failure_returns_mock_id (st : ServerState) (now : ℚ)
    (procTime : ℕ) (e : DbErr) (req : GenerateRequest) (r : GenResult)
    (h : generate_trajectory st now procTime (.error e) req = .ok r)
    (hp : r.savedPath ≠ none) :
    save_trajectory (.error e) = 1 ∧ r.response.id = 1 := by
  have s := ok_compute_spec h hp
  exact ⟨rfl, s.2.2.2.1⟩

theorem db_failure_returns_mock_id_witness :
    save_trajectory (.error .unavailable) = 1 ∧
    (computeBranch ⟨[], []⟩ 0 0 (.error .unavailable) ⟨1, 1, 1, []⟩
        (get_cache_key 1 1 1 [])).response.id = 1 := by
  have hv : validate ⟨1, 1, 1, []⟩ = none := by
    norm_num [validate, validateObstacles]
  have hmiss : cacheLookup (ServerState.mk [] []).trajectory_cache
      (get_cache_key 1 1 1 []) = none := rfl
  have h1 := @generate_trajectory_miss ⟨[], []⟩ 0 0 (.error .unavailable)
    ⟨1, 1, 1, []⟩ hv hmiss
  exact db_failure_returns_mock_id ⟨[], []⟩ 0 0 .unavailable ⟨1, 1, 1, []⟩ _ h1
    (by rw [computeBranch_savedPath]; exact Option.some_ne_none _)

end PaintWall

namespace PaintWall

lemma obsTup_injective : Function.Injective obsTup := by
  intro a b h
  cases a
  cases b
  unfold obsTup at h
  have h2 := toLex.injective h
  simp only [Prod.mk.injEq] at h2
  obtain ⟨hx, h3⟩ := h2
  have h4 := toLex.injective h3
  simp only [Prod.mk.injEq] at h4
  obtain ⟨hy, h5⟩ := h4
  have h6 := toLex.injective h5
  simp only [Prod.mk.injEq] at h6
  obtain ⟨hw, hh⟩ := h6
  simp only [Obstacle.mk.injEq]
  exact ⟨hx, hy, hw, hh⟩

instance : IsTrans Obstacle obsLe :=
  ⟨fun _ _ _ hab hbc => le_trans hab hbc⟩

instance : IsTotal Obstacle obsLe :=
  ⟨fun a b => le_total (obsTup a) (obsTup b)⟩

instance : IsAntisymm Obstacle obsLe :=
  ⟨fun _ _ h1 h2 => obsTup_injective (le_antisymm h1 h2)⟩

/-- Sorting by the canonical key is invariant under permutation of the
input list: `sorted` in `get_cache_key` canonicalizes obstacle order. -/
lemma sortObstacles_eq_of_perm {l1 l2 : List Obstacle} (h : List.Perm l1 l2) :
    sortObstacles l1 = sortObstacles l2 := by
  refine List.eq_of_perm_of_sorted (r := obsLe) ?_ ?_ ?_
  · exact ((List.perm_insertionSort obsLe l1).trans h).trans
      (List.perm_insertionSort obsLe l2).symm
  · exact List.sorted_insertionSort obsLe l1
  · exact List.sorted_insertionSort obsLe l2

end PaintWall

namespace PaintWall

/-- C3, counterexample: the canonical (sorted) obstacle sequence of the
two permuted lists is the same, yet the memoization keys of
`cached_generate_coverage_path` differ, because that layer is keyed on
`json.dumps(obstacles)` in original request order — not on the sorted
sequence as claimed. -/
theorem memoization_key_not_canonical :
    sortObstacles [⟨1, 1, 1, 1⟩, ⟨0, 0, 1, 1⟩] =
      sortObstacles [⟨0, 0, 1, 1⟩, ⟨1, 1, 1, 1⟩] ∧
    lruKeyOf 2 2 1 [⟨1, 1, 1, 1⟩, ⟨0, 0, 1, 1⟩] ≠
      lruKeyOf 2 2 1 [⟨0, 0, 1, 1⟩, ⟨1, 1, 1, 1⟩] := by
  constructor
  · decide
  · decide

/-- C3, amended: for two valid requests with equal dimensions and step
whose obstacle lists are permutations of each other, the canonical cache
key is identical; after a first (cache-missing) call, a second call within
the TTL window is served from the response cache — same response, planner
not invoked; but the memoization layer in front of the planner is keyed on
the obstacle sequence in its original request order, so its keys agree only
when the request orders agree. -/
theorem cache_coherence (W H s : ℚ) (o1 o2 : List Obstacle) (st : ServerState)
    (t1 t2 : ℚ) (pt1 pt2 : ℕ) (db1 db2 : Except DbErr ℕ)
    (hperm : List.Perm o1 o2)
    (hv : validate ⟨W, H, s, o1⟩ = none)
    (hmiss : cacheLookup st.trajectory_cache (get_cache_key W H s o1) = none)
    (httl : t2 - t1 < CACHE_TTL) :
    get_cache_key W H s o1 = get_cache_key W H s o2 ∧
    generate_trajectory st t1 pt1 db1 ⟨W, H, s, o1⟩ =
      .ok (computeBranch st t1 pt1 db1 ⟨W, H, s, o1⟩ (get_cache_key W H s o1)) ∧
    generate_trajectory (computeBranch st t1 pt1 db1 ⟨W, H, s, o1⟩
        (get_cache_key W H s o1)).state t2 pt2 db2 ⟨W, H, s, o2⟩ =
      .ok { response := (computeBranch st t1 pt1 db1 ⟨W, H, s, o1⟩
              (get_cache_key W H s o1)).response
            state := (computeBranch st t1 pt1 db1 ⟨W, H, s, o1⟩
              (get_cache_key W H s o1)).state
            plannerInvoked := false
            savedPath := none } ∧
    (lruKeyOf W H s o1 = lruKeyOf W H s o2 ↔ o1 = o2) := by
  have hkey : get_cache_key W H s o1 = get_cache_key W H s o2 := by
    unfold get_cache_key
    rw [sortObstacles_eq_of_perm hperm]
  have hv2 : validate ⟨W, H, s, o2⟩ = none := by
    have h1 := validate_eq_none_iff.mp hv
    exact validate_eq_none_iff.mpr
      ⟨h1.1, h1.2.1, h1.2.2.1, h1.2.2.2.1,
       fun o ho => h1.2.2.2.2 o (hperm.mem_iff.mpr ho)⟩
  have hrun1 : generate_trajectory st t1 pt1 db1 ⟨W, H, s, o1⟩ =
      .ok (computeBranch st t1 pt1 db1 ⟨W, H, s, o1⟩ (get_cache_key W H s o1)) :=
    generate_trajectory_miss hv hmiss
  have hfound : cacheLookup (computeBranch st t1 pt1 db1 ⟨W, H, s, o1⟩
      (get_cache_key W H s o1)).state.trajectory_cache
      (get_cache_key W H s o2) =
      some ⟨(computeBranch st t1 pt1 db1 ⟨W, H, s, o1⟩
        (get_cache_key W H s o1)).response, t1⟩ := by
    rw [← hkey]
    unfold computeBranch cacheInsert cacheLookup
    rw [if_pos rfl]
  refine ⟨hkey, hrun1, generate_trajectory_hit hv2 hfound (by linarith), ?_⟩
  constructor
  · intro h
    unfold lruKeyOf at h
    simpa using h
  · intro h
    rw [h]

theorem cache_coherence_witness :
    get_cache_key 2 2 1 [⟨1, 1, 1, 1⟩, ⟨0, 0, 1, 1⟩] =
      get_cache_key 2 2 1 [⟨0, 0, 1, 1⟩, ⟨1, 1, 1, 1⟩] := by
  refine (cache_coherence 2 2 1 [⟨1, 1, 1, 1⟩, ⟨0, 0, 1, 1⟩]
    [⟨0, 0, 1, 1⟩, ⟨1, 1, 1, 1⟩] ⟨[], []⟩ 0 100 0 0 (.ok 1) (.ok 2)
    (List.Perm.swap _ _ _) ?_ rfl ?_).1
  · norm_num [validate, validateObstacles]
  · norm_num [CACHE_TTL]

end PaintWall
